import Mathlib

/-!
Verification development for the GGE-Utility-Bot server-communication and
attack-polling subsystem.  The Python source is shallowly embedded: JSON
values become an inductive `Json` type (the `json` stdlib boundary), dicts
and sets become association lists / membership lists, coroutine state
becomes explicit state passing, and every fallible code path returns
`Option` or `Except`.
-/

set_option maxHeartbeats 1000000

namespace GGE

/-- The domain of Python values produced by `json.loads`: null, booleans,
integers, strings, lists and string-keyed dicts.  (Floating-point numbers
are not needed by any claim and are omitted from the model.) -/
inductive Json where
  | null : Json
  | bool (b : Bool) : Json
  | int (n : Int) : Json
  | str (s : String) : Json
  | arr (xs : List Json) : Json
  | obj (fields : List (String × Json)) : Json
deriving Repr

mutual

def Json.decEq : (a b : Json) → Decidable (a = b)
  | .null, .null => isTrue rfl
  | .bool a, .bool b =>
    if h : a = b then isTrue (h ▸ rfl)
    else isFalse (fun hh => h (Json.bool.inj hh))
  | .int a, .int b =>
    if h : a = b then isTrue (h ▸ rfl)
    else isFalse (fun hh => h (Json.int.inj hh))
  | .str a, .str b =>
    if h : a = b then isTrue (h ▸ rfl)
    else isFalse (fun hh => h (Json.str.inj hh))
  | .arr xs, .arr ys =>
    match Json.decEqList xs ys with
    | isTrue h => isTrue (h ▸ rfl)
    | isFalse h => isFalse (fun hh => h (Json.arr.inj hh))
  | .obj fs, .obj gs =>
    match Json.decEqFields fs gs with
    | isTrue h => isTrue (h ▸ rfl)
    | isFalse h => isFalse (fun hh => h (Json.obj.inj hh))
  | .null, .bool _ | .null, .int _ | .null, .str _ | .null, .arr _ | .null, .obj _
  | .bool _, .null | .bool _, .int _ | .bool _, .str _ | .bool _, .arr _ | .bool _, .obj _
  | .int _, .null | .int _, .bool _ | .int _, .str _ | .int _, .arr _ | .int _, .obj _
  | .str _, .null | .str _, .bool _ | .str _, .int _ | .str _, .arr _ | .str _, .obj _
  | .arr _, .null | .arr _, .bool _ | .arr _, .int _ | .arr _, .str _ | .arr _, .obj _
  | .obj _, .null | .obj _, .bool _ | .obj _, .int _ | .obj _, .str _ | .obj _, .arr _ =>
    isFalse (by intro hh; exact Json.noConfusion hh)
termination_by structural a _ => a

def Json.decEqList : (xs ys : List Json) → Decidable (xs = ys)
  | [], [] => isTrue rfl
  | [], _ :: _ => isFalse (by intro hh; exact List.noConfusion hh)
  | _ :: _, [] => isFalse (by intro hh; exact List.noConfusion hh)
  | x :: xs, y :: ys =>
    match Json.decEq x y with
    | isTrue h1 =>
      match Json.decEqList xs ys with
      | isTrue h2 => isTrue (by rw [h1, h2])
      | isFalse h2 => isFalse (fun hh => h2 (List.cons.inj hh).2)
    | isFalse h1 => isFalse (fun hh => h1 (List.cons.inj hh).1)
termination_by structural xs _ => xs

def Json.decEqFields : (fs gs : List (String × Json)) → Decidable (fs = gs)
  | [], [] => isTrue rfl
  | [], _ :: _ => isFalse (by intro hh; exact List.noConfusion hh)
  | _ :: _, [] => isFalse (by intro hh; exact List.noConfusion hh)
  | (k, v) :: fs, (k', v') :: gs =>
    match (inferInstance : DecidableEq String) k k' with
    | isTrue hk =>
      match Json.decEq v v' with
      | isTrue hv =>
        match Json.decEqFields fs gs with
        | isTrue ht => isTrue (by rw [hk, hv, ht])
        | isFalse ht => isFalse (fun hh => ht (List.cons.inj hh).2)
      | isFalse hv =>
        isFalse (fun hh => hv (congrArg Prod.snd (List.cons.inj hh).1))
    | isFalse hk =>
      isFalse (fun hh => hk (congrArg Prod.fst (List.cons.inj hh).1))
termination_by structural fs _ => fs

end

instance : DecidableEq Json := Json.decEq

/-- Python `repr` quoting of a string: wrapped in single quotes. -/
def pyQuoted (s : String) : String :=
  String.singleton (Char.ofNat 39) ++ s ++ String.singleton (Char.ofNat 39)

mutual

/-- Python `str(x)` / f-string rendering of a JSON-decoded value. -/
def pyStr : Json → String
  | .null => "None"
  | .bool true => "True"
  | .bool false => "False"
  | .int n => toString n
  | .str s => s
  | .arr xs => "[" ++ String.intercalate ", " (pyStrList xs) ++ "]"
  | .obj fs => "\x7b" ++ String.intercalate ", " (pyStrFields fs) ++ "\x7d"

/-- Python `repr(x)`, as used for elements inside container rendering. -/
def pyRepr : Json → String
  | .str s => pyQuoted s
  | .null => "None"
  | .bool true => "True"
  | .bool false => "False"
  | .int n => toString n
  | .arr xs => "[" ++ String.intercalate ", " (pyStrList xs) ++ "]"
  | .obj fs => "\x7b" ++ String.intercalate ", " (pyStrFields fs) ++ "\x7d"
termination_by structural j => j

def pyStrList : List Json → List String
  | [] => []
  | j :: js => pyRepr j :: pyStrList js
termination_by structural l => l

def pyStrFields : List (String × Json) → List String
  | [] => []
  | (k, v) :: fs => (pyQuoted k ++ ": " ++ pyRepr v) :: pyStrFields fs
termination_by structural l => l

end

/-- Association-list lookup modelling Python `dict` access (first match;
dict keys are unique by construction). -/
def alookup {β : Type} : List (String × β) → String → Option β
  | [], _ => none
  | (k, v) :: rest, key => if key = k then some v else alookup rest key

/-- Python `d[k]` on a JSON-decoded value: succeeds only on a dict holding
the key; every other receiver raises (`KeyError` / `TypeError`). -/
def getItemStr (j : Json) (k : String) : Except Unit Json :=
  match j with
  | .obj fs =>
    match alookup fs k with
    | some v => .ok v
    | none => .error ()
  | _ => .error ()

/-- Python `x[i]` for an integer index on a JSON-decoded value: list
indexing (raising `IndexError` out of range), string indexing (a one-char
string), and an error (`TypeError`/`KeyError`) on everything else. -/
def getIdx (j : Json) (i : Nat) : Except Unit Json :=
  match j with
  | .arr xs =>
    match xs[i]? with
    | some v => .ok v
    | none => .error ()
  | .str s =>
    match s.data[i]? with
    | some c => .ok (.str (String.singleton c))
    | none => .error ()
  | _ => .error ()

/-- Python integer coercion used by arithmetic (`TT - PT`): ints are ints,
bools are 0/1, anything else raises `TypeError`. -/
def asNum : Json → Except Unit Int
  | .int n => .ok n
  | .bool b => .ok (if b then 1 else 0)
  | _ => .error ()

/-- Python `"GS" in atk_data or "GA" in atk_data`: key test on dicts,
substring test on strings, membership test on lists, `TypeError`
elsewhere. -/
def hasThreatKeys : Json → Except Unit Bool
  | .obj fs => .ok (fs.any (fun f => f.1 == "GS") || fs.any (fun f => f.1 == "GA"))
  | .str s => .ok (decide ((s.splitOn "GS").length > 1) || decide ((s.splitOn "GA").length > 1))
  | .arr xs => .ok (xs.contains (.str "GS") || xs.contains (.str "GA"))
  | _ => .error ()

/-- `dict.get k default` on a JSON object; `none`-free total form used
where the receiver is already known to be a dict. -/
def objGetD (j : Json) (k : String) (d : Json) : Json :=
  match j with
  | .obj fs => (alookup fs k).getD d
  | _ => d

namespace DP

/-- `utils.as_compound_time`: render seconds as a compound duration,
omitting leading zero units.  Python `//` is floor division and `%` with a
positive divisor is a nonnegative remainder, matching `Int.fdiv`/`Int.emod`. -/
def as_compound_time (seconds : Int) : String :=
  let h := seconds.fdiv 3600
  let m := (seconds.fdiv 60) % 60
  let s := seconds % 60
  if h ≠ 0 then s!"{h}h {m}m {s}s"
  else if m ≠ 0 then s!"{m}m {s}s"
  else s!"{s}s"

/-- `data_process.UnpackedAttackDataType`.  Fields read straight out of the
decoded JSON carry no runtime type enforcement in the source (the `int`/`str`
annotations are hints only), so they stay `Json` here; `remaining_time` is
the result of an integer subtraction and is an `Int`. -/
structure UnpackedAttackData where
  atk_id : Json
  remaining_time : Int
  target_x : Json
  target_y : Json
  target_name : Json
  target_player_name : Json
  attacker_x : Json
  attacker_y : Json
  attacker_name : Json
  attacker_player_name : Json
  est_count : Json
deriving DecidableEq, Repr

/-- `data_process.AttackListener.serialize`: format one attack record as the
user-facing message string. -/
def serialize (d : UnpackedAttackData) : String :=
  let compound_time := as_compound_time d.remaining_time
  let target_x := pyStr d.target_x
  let target_y := pyStr d.target_y
  let target_name := pyStr d.target_name
  let target_player_name := pyStr d.target_player_name
  let attacker_x := pyStr d.attacker_x
  let attacker_y := pyStr d.attacker_y
  let attacker_name := pyStr d.attacker_name
  let attacker_player_name := pyStr d.attacker_player_name
  let est_count := pyStr d.est_count
  let components :=
    [s!"Incoming attack in approx. {compound_time}",
     s!"at \"{target_name}\" of \"{target_player_name}\"",
     s!"({target_x}:{target_y})",
     s!"from \"{attacker_name}\" of \"{attacker_player_name}\"",
     s!"({attacker_x}:{attacker_y})"]
  let components :=
    if d.est_count ≠ .int (-1) then
      components ++ [s!"with approx. {est_count} troop(s)"]
    else components
  String.intercalate " " components

/-- `data_process.AttackListener._unpack_atk_data`: decode one raw entry.
`Except.error` models an exception escaping the per-entry `try` (structural
failure); `.ok none` models the clean "not an attack threat" drop; `.ok
(some r)` is a decoded record.  Reads follow the source line by line. -/
def unpack_atk_data (atk_data : Json) (players : List (String × Json)) :
    Except Unit (Option UnpackedAttackData) := do
  let threat ← hasThreatKeys atk_data
  if !threat then
    return none
  let m ← getItemStr atk_data "M"
  let atk_id ← getItemStr m "MID"
  let tt ← asNum (← getItemStr m "TT")
  let pt ← asNum (← getItemStr m "PT")
  let remaining_time := tt - pt
  let target_id ← getItemStr m "TID"
  let attacker_id ← getItemStr m "OID"
  let ta ← getItemStr m "TA"
  let target_x ← getIdx ta 1
  let target_y ← getIdx ta 2
  let target_name ← getIdx ta 10
  let tplayer ←
    match alookup players (pyStr target_id) with
    | some p => pure p
    | none => .error ()
  let target_player_name ← getItemStr tplayer "N"
  let sa ← getItemStr m "SA"
  let attacker_x ← getIdx sa 1
  let attacker_y ← getIdx sa 2
  let attacker_name ← getIdx sa 10
  let aplayer ←
    match alookup players (pyStr attacker_id) with
    | some p => pure p
    | none => .error ()
  let attacker_player_name ← getItemStr aplayer "N"
  let est_count := objGetD atk_data "GS" (.int (-1))
  return some
    { atk_id := atk_id
      remaining_time := remaining_time
      target_x := target_x
      target_y := target_y
      target_name := target_name
      target_player_name := target_player_name
      attacker_x := attacker_x
      attacker_y := attacker_y
      attacker_name := attacker_name
      attacker_player_name := attacker_player_name
      est_count := est_count }

/-- Python iteration `for x in j`: lists yield their elements, dicts yield
their keys, strings yield their one-character substrings, everything else
raises `TypeError`. -/
def iterEntries : Json → Except Unit (List Json)
  | .arr xs => .ok xs
  | .obj fs => .ok (fs.map (fun f => .str f.1))
  | .str s => .ok (s.data.map (fun c => .str (String.singleton c)))
  | _ => .error ()

/-- The `players` dict comprehension in `_deserialize`: key each entry of
`data["O"]` by `str(player_data["OID"])`; a later duplicate key overrides an
earlier one, as in a Python dict. -/
def buildPlayers : List Json → Except Unit (List (String × Json))
  | [] => .ok []
  | p :: ps => do
    let oid ← getItemStr p "OID"
    let rest ← buildPlayers ps
    let key := pyStr oid
    if rest.any (fun q => q.1 == key) then
      return rest
    else
      return (key, p) :: rest

/-- The per-entry loop of `_deserialize`: each entry is unpacked inside its
own `try`, an exception (`.error`) or a `None` result skips only that
entry. -/
def processEntries (players : List (String × Json)) :
    List Json → List UnpackedAttackData
  | [] => []
  | e :: rest =>
    match unpack_atk_data e players with
    | .ok (some r) => r :: processEntries players rest
    | _ => processEntries players rest

/-- `data_process.AttackListener._deserialize` from the point where
`json.loads(parts[5])` has produced `data`: build the player table from
`data["O"]`, then decode each entry of `data["M"]`.  Any exception outside
the per-entry `try` aborts the whole message. -/
def deserializeCore (data : Json) : Except Unit (List UnpackedAttackData) := do
  let o ← getItemStr data "O"
  let oEntries ← iterEntries o
  let players ← buildPlayers oEntries
  let m ← getItemStr data "M"
  let mEntries ← iterEntries m
  return processEntries players mEntries

/-- A raw string entry of a poll response, modelled at the boundary of the
external `str.split` / `json.loads` calls: `none` when `message.split("%")`
has no sixth part or that part is not valid JSON, otherwise the parsed JSON
of the sixth part. -/
def RawMsg : Type := Option Json

instance : DecidableEq RawMsg := fun a b => (inferInstance : DecidableEq (Option Json)) a b

/-- `data_process.AttackListener.deserialize`: the outer wrapper catches
every exception and returns the absence value instead. -/
def deserialize (message : RawMsg) : Option (List UnpackedAttackData) :=
  match message with
  | none => none
  | some data =>
    match deserializeCore data with
    | .ok recs => some recs
    | .error _ => none

/-- An entry is malformed when unpacking it raises a structural failure
(missing field, wrong type) inside the per-entry `try`. -/
def entry_malformed (players : List (String × Json)) (e : Json) : Bool :=
  match unpack_atk_data e players with
  | .error _ => true
  | _ => false

/-- An entry is a well-formed non-attack when unpacking cleanly returns the
"not an attack threat" result (neither `GS` nor `GA` present). -/
def entry_not_attack (players : List (String × Json)) (e : Json) : Bool :=
  match unpack_atk_data e players with
  | .ok none => true
  | _ => false

/-- A structurally complete attack entry *without* the `GS`/`GA` threat
markers: every field the decoder would read is present and well-typed, yet
the entry is dropped as a non-attack, not as a structural failure. -/
def nonThreatEntry : Json :=
  .obj [("M", .obj [("MID", .int 1), ("TT", .int 100), ("PT", .int 40),
    ("TID", .int 70), ("OID", .int 80),
    ("TA", .arr [.int 0, .int 10, .int 20, .int 0, .int 0, .int 0, .int 0,
      .int 0, .int 0, .int 0, .str "Castle"]),
    ("SA", .arr [.int 0, .int 30, .int 40, .int 0, .int 0, .int 0, .int 0,
      .int 0, .int 0, .int 0, .str "Camp"])])]

/-- The player table matching `nonThreatEntry`'s `TID`/`OID`. -/
def samplePlayers : List (String × Json) :=
  [("70", .obj [("OID", .int 70), ("N", .str "Defender")]),
   ("80", .obj [("OID", .int 80), ("N", .str "Raider")])]

end DP

namespace BotServices

/-- One monitored account's identity and routing scope, as read from a
player configuration (`info` + `visibility`). -/
structure Account where
  username : String
  password : String
  server : String
  routes : List Int
deriving DecidableEq, Repr

/-- `bot_services.attack_listener.RoutingInfo`. -/
structure RoutingInfo where
  username : String
  server : String
  routes : List Int
deriving DecidableEq, Repr

/-- `AttackListener._serialize_routing_info`. -/
def serialize_routing_info (a : Account) : RoutingInfo :=
  { username := a.username, server := a.server, routes := a.routes }

/-- The content a `search` poll's `send_request` call resolves to: the
absence value on timeout, an `{"error": ...}` object, or a well-formed
`{"response": [msg_list, new_index]}` payload (the shape the package
version's `_unpack_response` validates as `tuple[list[str], int]`). -/
inductive PollResponse where
  | absent : PollResponse
  | error (e : String) : PollResponse
  | success (msgs : List DP.RawMsg) (index : Int) : PollResponse

/-- The mutable state of one `AttackListener` instance that the polling
loops touch: each listener task's local cursor (`index`), keyed by its
account, and the instance-wide `_prev_atk_ids` set (insertion-ordered
list with set membership). -/
structure ListenerState where
  indices : Account → Option Int
  prev_atk_ids : List Json

def lookupIndex (a : Account) (st : ListenerState) : Option Int :=
  st.indices a

def setIndex (f : Account → Option Int) (a : Account) (k : Int) :
    Account → Option Int :=
  fun x => if x = a then some k else f x

/-- The dedup loop over one deserialized record list (the `for atk_data in
deserialized` body of `_encode_msg` / the flat `_listener`): keep a record
iff its id is not in `_prev_atk_ids`, adding kept ids as it goes. -/
def processRecords (prev : List Json) :
    List DP.UnpackedAttackData → List DP.UnpackedAttackData × List Json
  | [] => ([], prev)
  | r :: rest =>
    if r.atk_id ∈ prev then processRecords prev rest
    else
      let step := processRecords (prev ++ [r.atk_id]) rest
      (r :: step.1, step.2)

/-- `AttackListener._encode_msg`: deserialize one raw message, dropping it
entirely on decode failure, then dedup its records against
`_prev_atk_ids`. -/
def encode_msg (prev : List Json) (msg : DP.RawMsg) :
    List DP.UnpackedAttackData × List Json :=
  match DP.deserialize msg with
  | none => ([], prev)
  | some recs => processRecords prev recs

/-- The `for msg in msg_list` loop of `_listener`. -/
def processMsgs (prev : List Json) :
    List DP.RawMsg → List DP.UnpackedAttackData × List Json
  | [] => ([], prev)
  | m :: ms =>
    let a := encode_msg prev m
    let b := processMsgs a.2 ms
    (a.1 ++ b.1, b.2)

/-- One Routing Envelope pushed to `_output_queue`, together with the
decoded records it was built from (`msgs = records.map serialize`). -/
structure Envelope where
  routing : RoutingInfo
  records : List DP.UnpackedAttackData
  msgs : List String
deriving DecidableEq, Repr

/-- One iteration of the `while True` polling loop of
`AttackListener._listener` for account `a`, given the content its
`send_request` resolved to: timeouts and error responses skip the cycle;
a success deduplicates and serializes the batch, replaces the cursor with
the returned index, and pushes an envelope iff any message was kept. -/
def listenerStep (st : ListenerState) (a : Account) (r : PollResponse) :
    ListenerState × Option Envelope :=
  match r with
  | .absent => (st, none)
  | .error _ => (st, none)
  | .success msgs k =>
    let pm := processMsgs st.prev_atk_ids msgs
    let st' : ListenerState := ⟨setIndex st.indices a k, pm.2⟩
    if pm.1.isEmpty then (st', none)
    else (st', some ⟨serialize_routing_info a, pm.1, pm.1.map DP.serialize⟩)

/-- A cooperative interleaving of the per-account listener tasks of one
`AttackListener` instance: each schedule entry is one poll cycle of one
account's task, and the envelopes pushed to the shared output queue are
collected in order. -/
def runListener (st : ListenerState) :
    List (Account × PollResponse) → ListenerState × List Envelope
  | [] => (st, [])
  | (a, r) :: rest =>
    let s := listenerStep st a r
    let rr := runListener s.1 rest
    (rr.1, s.2.toList ++ rr.2)

/-- The `start_index` values account `a`'s poll requests carry over a
schedule: at each of `a`'s cycles, the current cursor. -/
def pollStartsFor (a : Account) (st : ListenerState) :
    List (Account × PollResponse) → List Int
  | [] => []
  | (b, r) :: rest =>
    (if b = a then (lookupIndex a st).toList else [])
      ++ pollStartsFor a (listenerStep st b r).1 rest

/-- One poll cycle's response respects the current cursor: a successful
response returns an index no smaller than the cursor it was issued from. -/
def goodStep (st : ListenerState) (b : Account) : PollResponse → Bool
  | .success _ k =>
    match lookupIndex b st with
    | some i => decide (i ≤ k)
    | none => true
  | _ => true

/-- A schedule in which every successful poll response returns an index no
smaller than the cursor the request was issued from. -/
def goodSched (st : ListenerState) :
    List (Account × PollResponse) → Bool
  | [] => true
  | (b, r) :: rest =>
    goodStep st b r && goodSched (listenerStep st b r).1 rest

/-- The envelopes of a run that carry account `a`'s routing information. -/
def outputsFor (a : Account) (outs : List Envelope) : List Envelope :=
  outs.filter (fun env => env.routing == serialize_routing_info a)

/-- Does an envelope's record batch contain the event id `id`? -/
def envContains (id : Json) (env : Envelope) : Bool :=
  env.records.any (fun rcd => rcd.atk_id == id)

/-- `config.PlayerConfigType`, restricted to the fields
`AttackListener.start` reads. -/
structure PlayerConfig where
  username : String
  password : String
  server : String
  attack_listener_enabled : Bool
  visibility : List Int
deriving DecidableEq, Repr

/-- The keyword arguments a spawned `_listener` task receives. -/
structure ListenerParams where
  username : String
  password : String
  server : String
  routes : List Int
deriving DecidableEq, Repr

def listenerParamsOf (c : PlayerConfig) : ListenerParams :=
  { username := c.username, password := c.password,
    server := c.server, routes := c.visibility }

/-- The state `AttackListener.start` touches: the `_started` flag and the
listener tasks spawned so far (in spawn order). -/
structure ALStartState where
  started : Bool
  spawned : List ListenerParams
deriving DecidableEq, Repr

/-- `AttackListener.start`: on the first call, spawn one `_listener` task
per enabled player configuration (skipping disabled ones) and set
`_started`; later calls fall through the guard and change nothing. -/
def AttackListener.start (cfgs : List PlayerConfig) (st : ALStartState) :
    ALStartState :=
  if st.started then st
  else
    { started := true
      spawned := st.spawned
        ++ (cfgs.filter (fun c => c.attack_listener_enabled)).map listenerParamsOf }

/-- Two concrete monitored accounts of one `AttackListener` instance. -/
def accountA : Account := ⟨"alice", "pwA", "s1", [1]⟩

def accountB : Account := ⟨"bob", "pwB", "s1", [2]⟩

/-- An attack-threat entry with event id 7 (`GA` marks it as a threat). -/
def threatEntry7 : Json :=
  .obj [("GA", .bool true),
    ("M", .obj [("MID", .int 7), ("TT", .int 100), ("PT", .int 40),
      ("TID", .int 70), ("OID", .int 80),
      ("TA", .arr [.int 0, .int 10, .int 20, .int 0, .int 0, .int 0, .int 0,
        .int 0, .int 0, .int 0, .str "Castle"]),
      ("SA", .arr [.int 0, .int 30, .int 40, .int 0, .int 0, .int 0, .int 0,
        .int 0, .int 0, .int 0, .str "Camp"])])]

/-- A poll message whose sixth segment decodes to one attack record with
event id 7. -/
def threatMsg7 : DP.RawMsg :=
  some (Json.obj [
    ("O", .arr [.obj [("OID", .int 70), ("N", .str "Defender")],
                .obj [("OID", .int 80), ("N", .str "Raider")]]),
    ("M", .arr [threatEntry7])])

/-- A fresh listener state: every account's cursor probed to 0, empty
seen-event set. -/
def freshState : ListenerState := ⟨fun _ => some 0, []⟩

/-- Schedule in which account B polls event 7 before account A does. -/
def schedBFirst : List (Account × PollResponse) :=
  [(accountB, .success [threatMsg7] 1), (accountA, .success [threatMsg7] 1)]

/-- The same schedule except that B's poll returns no events; A's cycle is
identical to the one in `schedBFirst`. -/
def schedBEmpty : List (Account × PollResponse) :=
  [(accountB, .success [] 1), (accountA, .success [threatMsg7] 1)]

end BotServices

namespace SC

/-- Bytes, as handled by `bytes` values in `auth.py`. -/
abbrev Byte := Fin 256

/-- UTF-8 bytes of a string (`str.encode()`). -/
def strBytes (s : String) : List Byte :=
  s.toUTF8.toList.map (fun b => ⟨b.toNat, b.val.isLt⟩)

/-- One uppercase hexadecimal digit (the alphabet of `base64.b16encode`). -/
def hexDigitUpper (n : Nat) : Char :=
  if n < 10 then Char.ofNat (48 + n) else Char.ofNat (55 + n)

/-- `base64.b16encode(..).decode()`: two uppercase hex digits per byte. -/
def b16encode (bs : List Byte) : String :=
  ⟨(bs.map (fun b => [hexDigitUpper (b.val / 16), hexDigitUpper (b.val % 16)])).flatten⟩

/-- The external cryptographic primitives of the `cryptography` package,
taken as parameters of the embedding: an HMAC-SHA256 (key, message) and an
Ed25519 signing operation (private key, message). -/
structure CryptoPrims where
  hmacSha256 : List Byte → List Byte → List Byte
  ed25519Sign : List Byte → List Byte → List Byte

/-- `auth.Auth.client_digest`: HMAC-SHA256 over `message` keyed by the
account `secret`, uppercase-hex encoded. -/
def Auth.client_digest (p : CryptoPrims) (message : List Byte)
    (secret : List Byte) : String :=
  b16encode (p.hmacSha256 secret message)

/-- `auth.Auth.control_digest`: Ed25519 signature over `message` under the
process-wide control private key (`controlKey` being the b16-decoded
`Auth.CONTROL_PRIVATE_KEY`), uppercase-hex encoded. -/
def Auth.control_digest (p : CryptoPrims) (controlKey : List Byte)
    (message : List Byte) : String :=
  b16encode (p.ed25519Sign controlKey message)

/-- Python `json.dumps` with default separators, as used for the canonical
content block.  (Non-ASCII escaping of string contents is not modelled;
no claim depends on it.) -/
def jsonEscape (s : String) : String :=
  s.data.foldl
    (fun acc c =>
      acc ++ (if c = '"' then "\\\"" else if c = '\\' then "\\\\" else String.singleton c))
    ""

mutual

def jsonDumps : Json → String
  | .null => "null"
  | .bool true => "true"
  | .bool false => "false"
  | .int n => toString n
  | .str s => "\"" ++ jsonEscape s ++ "\""
  | .arr xs => "[" ++ String.intercalate ", " (jsonDumpsList xs) ++ "]"
  | .obj fs => "\x7b" ++ String.intercalate ", " (jsonDumpsFields fs) ++ "\x7d"
termination_by structural j => j

def jsonDumpsList : List Json → List String
  | [] => []
  | j :: js => jsonDumps j :: jsonDumpsList js
termination_by structural l => l

def jsonDumpsFields : List (String × Json) → List String
  | [] => []
  | (k, v) :: fs => ("\"" ++ jsonEscape k ++ "\": " ++ jsonDumps v) :: jsonDumpsFields fs
termination_by structural l => l

end

/-- `server_comm.Request`.  The `command` is a string in the source (the
`Literal` annotation carries no runtime check); the timestamp is reduced
to an integer since no claim depends on float rendering. -/
structure Request where
  username : String
  password : String
  server : String
  command : String
  args : Json
  timestamp : Int
  msg_id : Int

/-- The `content` dict built inside `Request.message`, in source field
order. -/
def Request.content (r : Request) : Json :=
  .obj [("username", .str r.username), ("server", .str r.server),
        ("command", .str r.command), ("args", r.args),
        ("timestamp", .int r.timestamp), ("msg_id", .int r.msg_id)]

/-- The digest computed inside `Request.message`: the privileged Ed25519
signature for `disconnect`/`reconnect`, the account-keyed HMAC otherwise,
both over `json.dumps(content).encode()`. -/
def Request.digest (p : CryptoPrims) (controlKey : List Byte) (r : Request) :
    String :=
  let content_bytes := strBytes (jsonDumps r.content)
  if r.command ∈ ["disconnect", "reconnect"] then
    Auth.control_digest p controlKey content_bytes
  else
    Auth.client_digest p content_bytes (strBytes r.password)

/-- `server_comm.Request.message`: the full outbound wire frame. -/
def Request.message (p : CryptoPrims) (controlKey : List Byte) (r : Request) :
    String :=
  jsonDumps (.obj [("content", r.content), ("digest", .str (r.digest p controlKey))])

/-- `ServerComm._response_register`: pending-call slots keyed by
`str(msg_id)`, each holding the contents delivered to its queue so far. -/
abbrev Registry := List (String × List Json)

/-- Python dict assignment `register[key] = v`. -/
def regSet (reg : Registry) (k : String) (v : List Json) : Registry :=
  if (alookup reg k).isSome then
    reg.map (fun e => if e.1 = k then (k, v) else e)
  else reg ++ [(k, v)]

/-- Python `del register[key]`. -/
def regErase (reg : Registry) (k : String) : Registry :=
  reg.filter (fun e => e.1 != k)

/-- `ServerComm._process_response` acting on the pending-call registry.
The inbound frame is given as the outcome of the external `json.loads`
(`none` = unparseable).  Extraction of `content` and `msg_id` happens
under a bare `except` that swallows any failure; a frame whose
`str(msg_id)` matches no registered slot is dropped; otherwise the content
is appended to exactly that slot's queue. -/
def processResponse (reg : Registry) (response : Option Json) : Registry :=
  match response with
  | none => reg
  | some j =>
    match getItemStr j "content", getItemStr j "msg_id" with
    | .ok content, .ok msg_id =>
      let key := pyStr msg_id
      match alookup reg key with
      | none => reg
      | some _ => reg.map (fun e => if e.1 = key then (e.1, e.2 ++ [content]) else e)
    | _, _ => reg

/-- Modelled from the spec: `gge_utility_bot/server_comm.py` — the module
imported by `src/gge_utility_bot/bot_services/attack_listener.py` and the
unit tests — is absent from the source tree, and the flat
`src/server_comm.py` predates timeout support (its `send_request` takes no
`timeout` even though every caller passes one).  Per §4.2, `send_request`
registers a pending-call slot under `str(msg_id)`, enqueues the signed
envelope, then awaits a response for at most `timeout`; `arrival` is the
matching response content, `none` exactly when none arrives within
`timeout`, and in both outcomes the slot is deregistered before
returning. -/
def send_request (reg : Registry) (msg_id : Int) (timeout : Nat)
    (arrival : Option Json) : Option Json × Registry :=
  let key := toString msg_id
  let reg1 := regSet reg key []
  match arrival with
  | none => (none, regErase reg1 key)
  | some content => (some content, regErase reg1 key)

/-- `ServerComm._request_queue.get()` on an `asyncio.PriorityQueue` of
`(msg_id, wire_message)` entries: remove the smallest entry (sequence ids
are unique, so the first component decides). -/
def pqPop : List (Int × String) → Option ((Int × String) × List (Int × String))
  | [] => none
  | e :: rest =>
    match pqPop rest with
    | none => some (e, [])
    | some (m, rest') => if e.1 ≤ m.1 then some (e, rest) else some (m, e :: rest')

def drainAux : Nat → List (Int × String) → List (Int × String)
  | 0, _ => []
  | n + 1, q =>
    match pqPop q with
    | none => []
    | some (e, q') => e :: drainAux n q'

/-- The order `_send_msg_loop` writes the currently enqueued messages to
the wire when no further requests are enqueued. -/
def drain (q : List (Int × String)) : List (Int × String) :=
  drainAux q.length q

/-- The state `ServerComm.start` touches: the `_start_flag` event and the
number of `_connect_loop` tasks spawned. -/
structure SCStartState where
  startFlag : Bool
  connectLoops : Nat
deriving DecidableEq, Repr

/-- `ServerComm.start`: spawn the connection loop and set the flag on the
first call; later calls fall through the guard. -/
def ServerComm.start (st : SCStartState) : SCStartState :=
  if st.startFlag then st
  else { startFlag := true, connectLoops := st.connectLoops + 1 }

end SC

/-! ### Registry lemmas -/

namespace SC

theorem alookup_regErase (reg : Registry) (k : String) :
    alookup (regErase reg k) k = none := by
  induction reg with
  | nil => rfl
  | cons e rest ih =>
    obtain ⟨k', v⟩ := e
    simp only [regErase, List.filter_cons] at *
    by_cases h : k' = k
    · simp only [h, bne_self_eq_false, if_neg, Bool.false_eq_true,
        not_false_eq_true, ite_false]
      exact ih
    · have hb : (k' != k) = true := by simp [bne_iff_ne, h]
      simp only [hb, ite_true]
      simp only [alookup, Ne.symm h, ite_false, if_neg]
      exact ih

theorem alookup_bump_self (reg : Registry) (key : String) (c : Json)
    (q : List Json) (h : alookup reg key = some q) :
    alookup (reg.map (fun e => if e.1 = key then (e.1, e.2 ++ [c]) else e)) key
      = some (q ++ [c]) := by
  induction reg with
  | nil => simp [alookup] at h
  | cons e rest ih =>
    obtain ⟨k', v⟩ := e
    by_cases hk : key = k'
    · subst hk
      simp only [alookup, ite_true] at h
      cases h
      have hhead :
          (if (key, q).1 = key then ((key, q).1, (key, q).2 ++ [c]) else (key, q))
            = (key, q ++ [c]) := by simp
      rw [List.map_cons, hhead]
      simp [alookup]
    · simp only [alookup, hk, ite_false] at h
      have hne : k' ≠ key := fun hh => hk hh.symm
      simp only [List.map_cons, hne, ite_false]
      simp only [alookup, hk, ite_false]
      exact ih h

theorem alookup_bump_ne (reg : Registry) (key k : String) (c : Json)
    (h : k ≠ key) :
    alookup (reg.map (fun e => if e.1 = key then (e.1, e.2 ++ [c]) else e)) k
      = alookup reg k := by
  induction reg with
  | nil => rfl
  | cons e rest ih =>
    obtain ⟨k', v⟩ := e
    by_cases he : k' = key
    · subst he
      simp only [List.map_cons, ite_true]
      simp only [alookup, h, ite_false]
      exact ih
    · simp only [List.map_cons, he, ite_false]
      by_cases hke : k = k'
      · simp [alookup, hke]
      · simp only [alookup, hke, ite_false]
        exact ih

end SC

/-- C1: `send_request` accepts a per-request timeout; when no matching
response arrives within it, the call returns the absence value and the
pending-call slot registered under `str(msg_id)` is removed — no slot for
that sequence id remains in the register. -/
theorem C1_send_request_timeout_none_and_no_leak
    (reg : SC.Registry) (msg_id : Int) (timeout : Nat) :
    (SC.send_request reg msg_id timeout none).1 = none ∧
    alookup (SC.send_request reg msg_id timeout none).2 (toString msg_id) = none := by
  refine ⟨rfl, ?_⟩
  show alookup (SC.regErase (SC.regSet reg (toString msg_id) []) (toString msg_id))
      (toString msg_id) = none
  exact SC.alookup_regErase _ _

/-- C9: a poll cycle whose `send_request` resolved to the absence value or
to an error response is skipped with no observable state change — the
cursor and the seen-event set are untouched and no envelope is pushed (the
step function is total, so no exception can propagate). -/
theorem C9_skip_cycle_no_state_change
    (st : BotServices.ListenerState) (a : BotServices.Account) (e : String) :
    BotServices.listenerStep st a .absent = (st, none) ∧
    BotServices.listenerStep st a (.error e) = (st, none) :=
  ⟨rfl, rfl⟩

/-- C4: for an inbound frame parsed as `{content, msg_id}`, the receive
loop's `_process_response` delivers the content to exactly the pending
call registered under `str(msg_id)` — that slot's queue receives the
content and every other slot is untouched — while a frame whose `msg_id`
matches no registered slot leaves the register unchanged (silently
dropped).  Hence two in-flight requests with distinct sequence ids each
receive the response carrying their own id, whatever the arrival order. -/
theorem C4_receive_demux_by_msg_id
    (reg : SC.Registry) (j content msg_id : Json)
    (hc : getItemStr j "content" = .ok content)
    (hm : getItemStr j "msg_id" = .ok msg_id) :
    (alookup reg (pyStr msg_id) = none →
      SC.processResponse reg (some j) = reg) ∧
    (∀ q, alookup reg (pyStr msg_id) = some q →
      alookup (SC.processResponse reg (some j)) (pyStr msg_id) = some (q ++ [content]) ∧
      ∀ k, k ≠ pyStr msg_id →
        alookup (SC.processResponse reg (some j)) k = alookup reg k) := by
  constructor
  · intro hnone
    simp only [SC.processResponse, hc, hm, hnone]
  · intro q hq
    constructor
    · simp only [SC.processResponse, hc, hm, hq]
      exact SC.alookup_bump_self reg (pyStr msg_id) content q hq
    · intro k hk
      simp only [SC.processResponse, hc, hm, hq]
      exact SC.alookup_bump_ne reg (pyStr msg_id) k content hk

/-- Witness for C4: pending calls registered under sequence ids 10 and 11;
the response for 11 arrives first, then the one for 10 — each slot ends up
holding exactly the content carrying its own id. -/
theorem C4_receive_demux_by_msg_id_witness :
    alookup
      (SC.processResponse
        (SC.processResponse [("10", []), ("11", [])]
          (some (.obj [("content", .obj [("response", .str "r11")]), ("msg_id", .int 11)])))
        (some (.obj [("content", .obj [("response", .str "r10")]), ("msg_id", .int 10)])))
      "10" = some [.obj [("response", .str "r10")]] ∧
    alookup
      (SC.processResponse
        (SC.processResponse [("10", []), ("11", [])]
          (some (.obj [("content", .obj [("response", .str "r11")]), ("msg_id", .int 11)])))
        (some (.obj [("content", .obj [("response", .str "r10")]), ("msg_id", .int 10)])))
      "11" = some [.obj [("response", .str "r11")]] := by
  have h1 := C4_receive_demux_by_msg_id [("10", []), ("11", [])]
    (.obj [("content", .obj [("response", .str "r11")]), ("msg_id", .int 11)])
    (.obj [("response", .str "r11")]) (.int 11) rfl rfl
  have h2 := C4_receive_demux_by_msg_id
    (SC.processResponse [("10", []), ("11", [])]
      (some (.obj [("content", .obj [("response", .str "r11")]), ("msg_id", .int 11)])))
    (.obj [("content", .obj [("response", .str "r10")]), ("msg_id", .int 10)])
    (.obj [("response", .str "r10")]) (.int 10) rfl rfl
  refine ⟨?_, ?_⟩
  · exact (h2.2 [] (by decide)).1
  · have hkeep := (h2.2 [] (by decide)).2 "11" (by decide)
    rw [hkeep]
    exact (h1.2 [] (by decide)).1

namespace SC

theorem hexDigitUpper_mem_alphabet :
    ∀ i : Fin 16, hexDigitUpper i.val ∈ "0123456789ABCDEF".data := by decide

theorem hexPairs_chars (bs : List Byte) :
    ∀ c ∈ (bs.map (fun b =>
        [hexDigitUpper (b.val / 16), hexDigitUpper (b.val % 16)])).flatten,
      c ∈ "0123456789ABCDEF".data := by
  induction bs with
  | nil => intro c hc; cases hc
  | cons b rest ih =>
    intro c hc
    have hdiv : b.val / 16 < 16 := by omega
    have hmod : b.val % 16 < 16 := by omega
    simp only [List.map_cons, List.flatten_cons, List.cons_append, List.nil_append,
      List.mem_cons] at hc
    rcases hc with h | h | h
    · exact h ▸ hexDigitUpper_mem_alphabet ⟨b.val / 16, hdiv⟩
    · exact h ▸ hexDigitUpper_mem_alphabet ⟨b.val % 16, hmod⟩
    · exact ih c h

theorem b16encode_chars (bs : List Byte) :
    ∀ c ∈ (b16encode bs).data, c ∈ "0123456789ABCDEF".data :=
  fun c hc => hexPairs_chars bs c hc

end SC

/-- C5: the digest carried by the wire message is the Ed25519 signature
under the process-wide control private key exactly for the privileged
commands `disconnect` and `reconnect`, and the HMAC-SHA256 keyed by the
account's secret for `info`, `search`, `send` and `login`; in both cases
it is the uppercase-hex encoding of a digest over the canonical JSON
content bytes, and the message embeds it next to the content. -/
theorem C5_digest_scheme_selection
    (p : SC.CryptoPrims) (controlKey : List SC.Byte) (r : SC.Request) :
    (r.command ∈ ["disconnect", "reconnect"] →
      r.digest p controlKey
        = SC.b16encode (p.ed25519Sign controlKey (SC.strBytes (SC.jsonDumps r.content)))) ∧
    (r.command ∈ ["info", "search", "send", "login"] →
      r.digest p controlKey
        = SC.b16encode (p.hmacSha256 (SC.strBytes r.password)
            (SC.strBytes (SC.jsonDumps r.content)))) ∧
    (∀ c ∈ (r.digest p controlKey).data, c ∈ "0123456789ABCDEF".data) ∧
    r.message p controlKey
      = SC.jsonDumps (.obj [("content", r.content),
          ("digest", .str (r.digest p controlKey))]) := by
  refine ⟨?_, ?_, ?_, rfl⟩
  · intro h
    simp only [SC.Request.digest, h, ite_true]
    rfl
  · intro h
    have hne : r.command ∉ (["disconnect", "reconnect"] : List String) := by
      intro hmem
      simp only [List.mem_cons, List.not_mem_nil, or_false] at h hmem
      rcases h with h | h | h | h <;> rw [h] at hmem <;> simp at hmem
    simp only [SC.Request.digest, hne, ite_false]
    rfl
  · unfold SC.Request.digest
    by_cases h : r.command ∈ (["disconnect", "reconnect"] : List String)
    · simp only [h, ite_true]
      exact SC.b16encode_chars _
    · simp only [h, ite_false]
      exact SC.b16encode_chars _

/-- Witness for C5 at two concrete requests (one privileged, one
ordinary), with trivial concrete primitives. -/
theorem C5_digest_scheme_selection_witness :
    SC.Request.digest ⟨fun _ _ => [], fun _ _ => []⟩ []
        ⟨"u", "pw", "s", "disconnect", .obj [], 0, 0⟩
      = SC.b16encode ((⟨fun _ _ => [], fun _ _ => []⟩ : SC.CryptoPrims).ed25519Sign []
          (SC.strBytes (SC.jsonDumps
            (SC.Request.content ⟨"u", "pw", "s", "disconnect", .obj [], 0, 0⟩)))) ∧
    SC.Request.digest ⟨fun _ _ => [], fun _ _ => []⟩ []
        ⟨"u", "pw", "s", "info", .obj [], 0, 0⟩
      = SC.b16encode ((⟨fun _ _ => [], fun _ _ => []⟩ : SC.CryptoPrims).hmacSha256
          (SC.strBytes "pw")
          (SC.strBytes (SC.jsonDumps
            (SC.Request.content ⟨"u", "pw", "s", "info", .obj [], 0, 0⟩)))) :=
  ⟨(C5_digest_scheme_selection ⟨fun _ _ => [], fun _ _ => []⟩ []
      ⟨"u", "pw", "s", "disconnect", .obj [], 0, 0⟩).1 (by decide),
   (C5_digest_scheme_selection ⟨fun _ _ => [], fun _ _ => []⟩ []
      ⟨"u", "pw", "s", "info", .obj [], 0, 0⟩).2.1 (by decide)⟩

namespace SC

theorem pqPop_eq_none :
    ∀ (q : List (Int × String)), pqPop q = none → q = [] := by
  intro q h
  cases q with
  | nil => rfl
  | cons a rest =>
    rw [pqPop] at h
    cases hr : pqPop rest <;> rw [hr] at h <;> dsimp only at h
    · cases h
    · rename_i mr
      obtain ⟨m, rest'⟩ := mr
      dsimp only at h
      by_cases hcmp : a.1 ≤ m.1
      · rw [if_pos hcmp] at h; cases h
      · rw [if_neg hcmp] at h; cases h

theorem pqPop_min :
    ∀ (q : List (Int × String)) e q', pqPop q = some (e, q') → ∀ x ∈ q, e.1 ≤ x.1 := by
  intro q
  induction q with
  | nil => intro e q' h; cases h
  | cons a rest ih =>
    intro e q' h x hx
    rw [pqPop] at h
    cases hr : pqPop rest with
    | none =>
      rw [hr] at h
      dsimp only at h
      cases h
      have hnil : rest = [] := pqPop_eq_none rest hr
      subst hnil
      rcases List.mem_singleton.mp hx with rfl
      exact le_refl _
    | some mr =>
      obtain ⟨m, rest'⟩ := mr
      rw [hr] at h
      dsimp only at h
      by_cases hcmp : a.1 ≤ m.1
      · rw [if_pos hcmp] at h
        cases h
        rcases List.mem_cons.mp hx with rfl | hx'
        · exact le_refl _
        · exact le_trans hcmp (ih m rest' hr x hx')
      · rw [if_neg hcmp] at h
        cases h
        rcases List.mem_cons.mp hx with rfl | hx'
        · exact le_of_lt (lt_of_not_le hcmp)
        · exact ih _ _ hr x hx'

theorem pqPop_mem_of_mem_rest :
    ∀ (q : List (Int × String)) e q', pqPop q = some (e, q') → ∀ x ∈ q', x ∈ q := by
  intro q
  induction q with
  | nil => intro e q' h; cases h
  | cons a rest ih =>
    intro e q' h x hx
    rw [pqPop] at h
    cases hr : pqPop rest with
    | none =>
      rw [hr] at h
      dsimp only at h
      cases h
      cases hx
    | some mr =>
      obtain ⟨m, rest'⟩ := mr
      rw [hr] at h
      dsimp only at h
      by_cases hcmp : a.1 ≤ m.1
      · rw [if_pos hcmp] at h
        cases h
        exact List.mem_cons_of_mem a hx
      · rw [if_neg hcmp] at h
        cases h
        rcases List.mem_cons.mp hx with rfl | hx'
        · exact List.mem_cons_self _ _
        · exact List.mem_cons_of_mem _ (ih _ _ hr x hx')

theorem pqPop_self_mem :
    ∀ (q : List (Int × String)) e q', pqPop q = some (e, q') → e ∈ q := by
  intro q
  induction q with
  | nil => intro e q' h; cases h
  | cons a rest ih =>
    intro e q' h
    rw [pqPop] at h
    cases hr : pqPop rest with
    | none =>
      rw [hr] at h
      dsimp only at h
      cases h
      exact List.mem_cons_self _ _
    | some mr =>
      obtain ⟨m, rest'⟩ := mr
      rw [hr] at h
      dsimp only at h
      by_cases hcmp : a.1 ≤ m.1
      · rw [if_pos hcmp] at h
        cases h
        exact List.mem_cons_self _ _
      · rw [if_neg hcmp] at h
        cases h
        exact List.mem_cons_of_mem _ (ih _ _ hr)

theorem drainAux_head_mem :
    ∀ (n : Nat) (q : List (Int × String)) y,
      (drainAux n q).head? = some y → y ∈ q := by
  intro n
  cases n with
  | zero => intro q y h; cases h
  | succ m =>
    intro q y h
    rw [drainAux] at h
    cases hp : pqPop q with
    | none => rw [hp] at h; cases h
    | some eq' =>
      obtain ⟨e, q'⟩ := eq'
      rw [hp] at h
      rw [List.head?_cons] at h
      cases h
      exact pqPop_self_mem _ _ _ hp

theorem drainAux_chain (n : Nat) :
    ∀ (q : List (Int × String)),
      List.Chain' (fun x y => x.1 ≤ y.1) (drainAux n q) := by
  induction n with
  | zero => intro q; exact List.chain'_nil
  | succ m ih =>
    intro q
    rw [drainAux]
    cases hp : pqPop q with
    | none => exact List.chain'_nil
    | some eq' =>
      obtain ⟨e, q'⟩ := eq'
      rw [List.chain'_cons']
      refine ⟨?_, ih q'⟩
      intro y hy
      have hyq' : y ∈ q' := drainAux_head_mem m q' y hy
      have hyq : y ∈ q := pqPop_mem_of_mem_rest q e q' hp y hyq'
      exact pqPop_min q e q' hp y hyq

end SC

/-- C8: the send loop always dequeues, among the currently enqueued
`(sequence_id, wire_message)` entries, one with the smallest sequence id,
so draining the outbound priority queue writes messages to the wire in
ascending sequence-id (issuance) order even if they were enqueued out of
order. -/
theorem C8_send_loop_priority_order (q : List (Int × String)) :
    (∀ e q', SC.pqPop q = some (e, q') → ∀ x ∈ q, e.1 ≤ x.1) ∧
    List.Chain' (fun x y => x.1 ≤ y.1) (SC.drain q) :=
  ⟨fun e q' h => SC.pqPop_min q e q' h, SC.drainAux_chain q.length q⟩

/-- Witness for C8: a queue enqueued out of order (id 11 before id 10)
still pops id 10 first, and drains in ascending id order. -/
theorem C8_send_loop_priority_order_witness :
    ((10 : Int), "a").1 ≤ ((11 : Int), "b").1 ∧
    List.Chain' (fun x y => x.1 ≤ y.1) (SC.drain [(11, "b"), (10, "a")]) :=
  ⟨(C8_send_loop_priority_order [(11, "b"), (10, "a")]).1 (10, "a") [(11, "b")] rfl
      (11, "b") (by decide),
   (C8_send_loop_priority_order [(11, "b"), (10, "a")]).2⟩

/-- C10: `AttackListener.start` and `ServerComm.start` are idempotent: the
first call spawns the enabled per-account listener tasks (resp. the single
connection loop), and any repetition is a no-op, so starting twice from
fresh state spawns each enabled listener exactly once and exactly one
connection loop. -/
theorem C10_start_idempotent
    (cfgs : List BotServices.PlayerConfig) (st : BotServices.ALStartState)
    (sst : SC.SCStartState) :
    BotServices.AttackListener.start cfgs (BotServices.AttackListener.start cfgs st)
      = BotServices.AttackListener.start cfgs st ∧
    SC.ServerComm.start (SC.ServerComm.start sst) = SC.ServerComm.start sst ∧
    (BotServices.AttackListener.start cfgs
        (BotServices.AttackListener.start cfgs ⟨false, []⟩)).spawned
      = (cfgs.filter (fun c => c.attack_listener_enabled)).map
          BotServices.listenerParamsOf ∧
    (SC.ServerComm.start (SC.ServerComm.start ⟨false, 0⟩)).connectLoops = 1 := by
  refine ⟨?_, ?_, ?_, rfl⟩
  · by_cases h : st.started <;>
      simp [BotServices.AttackListener.start, h]
  · by_cases h : sst.startFlag <;>
      simp [SC.ServerComm.start, h]
  · simp [BotServices.AttackListener.start]

/-! ### Dedup invariants of the polling engine -/

namespace BotServices

theorem processRecords_prev_mono :
    ∀ (recs : List DP.UnpackedAttackData) (prev : List Json) (x : Json),
      x ∈ prev → x ∈ (processRecords prev recs).2 := by
  intro recs
  induction recs with
  | nil => intro prev x hx; exact hx
  | cons r rest ih =>
    intro prev x hx
    by_cases h : r.atk_id ∈ prev
    · simp only [processRecords, h, ite_true]
      exact ih prev x hx
    · simp only [processRecords, h, ite_false]
      exact ih (prev ++ [r.atk_id]) x (List.mem_append_left _ hx)

theorem processRecords_kept :
    ∀ (recs : List DP.UnpackedAttackData) (prev : List Json)
      (r : DP.UnpackedAttackData), r ∈ (processRecords prev recs).1 →
      r.atk_id ∉ prev ∧ r.atk_id ∈ (processRecords prev recs).2 := by
  intro recs
  induction recs with
  | nil => intro prev r hr; cases hr
  | cons a rest ih =>
    intro prev r hr
    by_cases h : a.atk_id ∈ prev
    · simp only [processRecords, h, ite_true] at hr ⊢
      exact ih prev r hr
    · simp only [processRecords, h, ite_false] at hr ⊢
      rcases List.mem_cons.mp hr with rfl | hr'
      · exact ⟨h, processRecords_prev_mono rest (prev ++ [r.atk_id]) _
          (List.mem_append_right _ (List.mem_singleton.mpr rfl))⟩
      · obtain ⟨h1, h2⟩ := ih (prev ++ [a.atk_id]) r hr'
        exact ⟨fun hc => h1 (List.mem_append_left _ hc), h2⟩

theorem encode_msg_prev_mono (prev : List Json) (m : DP.RawMsg) (x : Json)
    (hx : x ∈ prev) : x ∈ (encode_msg prev m).2 := by
  unfold encode_msg
  cases hd : DP.deserialize m with
  | none => exact hx
  | some recs =>
    simp only []
    exact processRecords_prev_mono recs prev x hx

theorem encode_msg_kept (prev : List Json) (m : DP.RawMsg)
    (r : DP.UnpackedAttackData) (hr : r ∈ (encode_msg prev m).1) :
    r.atk_id ∉ prev ∧ r.atk_id ∈ (encode_msg prev m).2 := by
  unfold encode_msg at hr ⊢
  cases hd : DP.deserialize m with
  | none =>
    simp only [hd] at hr
    cases hr
  | some recs =>
    simp only [hd] at hr ⊢
    exact processRecords_kept recs prev r hr

theorem processMsgs_prev_mono :
    ∀ (ms : List DP.RawMsg) (prev : List Json) (x : Json),
      x ∈ prev → x ∈ (processMsgs prev ms).2 := by
  intro ms
  induction ms with
  | nil => intro prev x hx; exact hx
  | cons m rest ih =>
    intro prev x hx
    exact ih (encode_msg prev m).2 x (encode_msg_prev_mono prev m x hx)

theorem processMsgs_kept :
    ∀ (ms : List DP.RawMsg) (prev : List Json) (r : DP.UnpackedAttackData),
      r ∈ (processMsgs prev ms).1 →
      r.atk_id ∉ prev ∧ r.atk_id ∈ (processMsgs prev ms).2 := by
  intro ms
  induction ms with
  | nil => intro prev r hr; cases hr
  | cons m rest ih =>
    intro prev r hr
    simp only [processMsgs] at hr ⊢
    rcases List.mem_append.mp hr with h1 | h2
    · obtain ⟨hna, hin⟩ := encode_msg_kept prev m r h1
      exact ⟨hna, processMsgs_prev_mono rest (encode_msg prev m).2 _ hin⟩
    · obtain ⟨hna, hin⟩ := ih (encode_msg prev m).2 r h2
      exact ⟨fun hc => hna (encode_msg_prev_mono prev m _ hc), hin⟩

theorem listenerStep_prev_mono (st : ListenerState) (a : Account)
    (r : PollResponse) (x : Json) (hx : x ∈ st.prev_atk_ids) :
    x ∈ (listenerStep st a r).1.prev_atk_ids := by
  cases r with
  | absent => exact hx
  | error e => exact hx
  | success msgs k =>
    simp only [listenerStep]
    split <;> exact processMsgs_prev_mono msgs st.prev_atk_ids x hx

theorem listenerStep_env_ids (st : ListenerState) (a : Account)
    (r : PollResponse) (env : Envelope)
    (he : (listenerStep st a r).2 = some env) :
    ∀ rcd ∈ env.records,
      rcd.atk_id ∉ st.prev_atk_ids ∧
      rcd.atk_id ∈ (listenerStep st a r).1.prev_atk_ids := by
  cases r with
  | absent => cases he
  | error e => cases he
  | success msgs k =>
    simp only [listenerStep] at he ⊢
    by_cases hemp : (processMsgs st.prev_atk_ids msgs).1.isEmpty
    · rw [if_pos hemp] at he
      cases he
    · rw [if_neg hemp] at he ⊢
      cases he
      intro rcd hrcd
      exact processMsgs_kept msgs st.prev_atk_ids rcd hrcd

theorem runListener_suppressed :
    ∀ (sched : List (Account × PollResponse)) (st : ListenerState) (id : Json),
      id ∈ st.prev_atk_ids →
      ((runListener st sched).2.countP (envContains id)) = 0 := by
  intro sched
  induction sched with
  | nil => intro st id h; rfl
  | cons p rest ih =>
    obtain ⟨a, r⟩ := p
    intro st id hid
    simp only [runListener]
    rw [List.countP_append]
    have h2 := ih (listenerStep st a r).1 id (listenerStep_prev_mono st a r id hid)
    cases he : (listenerStep st a r).2 with
    | none => simp [h2]
    | some env =>
      have hfalse : envContains id env = false := by
        rw [Bool.eq_false_iff]
        intro hc
        obtain ⟨rcd, hrcd, heq⟩ := List.any_eq_true.mp hc
        have hne := (listenerStep_env_ids st a r env he rcd hrcd).1
        rw [eq_of_beq heq] at hne
        exact hne hid
      simp [List.countP_cons, hfalse, h2]

end BotServices

/-- C2: over any interleaved sequence of poll cycles processed by one
`AttackListener` instance, each attack event id appears in the records
(and hence the serialized messages) of at most one Routing Envelope pushed
to the output queue: once the id enters `_prev_atk_ids`, later decoded
records with that id are never kept, serialized or emitted again. -/
theorem C2_no_duplicate_delivery
    (st : BotServices.ListenerState)
    (sched : List (BotServices.Account × BotServices.PollResponse)) (id : Json) :
    ((BotServices.runListener st sched).2.countP (BotServices.envContains id)) ≤ 1 := by
  induction sched generalizing st with
  | nil => simp [BotServices.runListener]
  | cons p rest ih =>
    obtain ⟨a, r⟩ := p
    simp only [BotServices.runListener]
    rw [List.countP_append]
    cases he : (BotServices.listenerStep st a r).2 with
    | none => simpa using ih (BotServices.listenerStep st a r).1
    | some env =>
      cases hc : BotServices.envContains id env with
      | false =>
        simp only [Option.toList_some, List.countP_cons, hc, cond_false,
          List.countP_nil, Nat.zero_add]
        simpa using ih (BotServices.listenerStep st a r).1
      | true =>
        obtain ⟨rcd, hrcd, heq⟩ := List.any_eq_true.mp hc
        have hin := (BotServices.listenerStep_env_ids st a r env he rcd hrcd).2
        rw [eq_of_beq heq] at hin
        have h0 := BotServices.runListener_suppressed rest
          (BotServices.listenerStep st a r).1 id hin
        simp [List.countP_cons, hc, h0]

/-- Counterexample to C7: `_prev_atk_ids` is one set per `AttackListener`
instance, shared by all account listener tasks.  Two runs that differ only
in the events account B polls produce different envelopes for account A:
when B sees event 7 first, A's identical poll yields no envelope at all. -/
theorem C7_counterexample_seen_set_shared_across_accounts :
    (BotServices.outputsFor BotServices.accountA
      (BotServices.runListener BotServices.freshState BotServices.schedBFirst).2).length = 0 ∧
    (BotServices.outputsFor BotServices.accountA
      (BotServices.runListener BotServices.freshState BotServices.schedBEmpty).2).length = 1 := by
  constructor
  · rfl
  · rfl

/-- C7 as amended: the Seen-Event Set is shared by every account task of
one `AttackListener` instance, so delivery for one account is suppressed
by ids previously seen through any account: an id already in the shared
set is never delivered again in any envelope, whichever account polls
it. -/
theorem C7_amended_shared_seen_set_suppression
    (st : BotServices.ListenerState)
    (sched : List (BotServices.Account × BotServices.PollResponse)) (id : Json)
    (h : id ∈ st.prev_atk_ids) :
    ((BotServices.runListener st sched).2.countP (BotServices.envContains id)) = 0 :=
  BotServices.runListener_suppressed sched st id h

/-- Witness for the amended C7: event 7 is already in the shared set, so
account A's poll of that event emits nothing. -/
theorem C7_amended_shared_seen_set_suppression_witness :
    ((BotServices.runListener ⟨fun _ => some 0, [Json.int 7]⟩
        [(BotServices.accountA, .success [BotServices.threatMsg7] 1)]).2.countP
      (BotServices.envContains (Json.int 7))) = 0 :=
  C7_amended_shared_seen_set_suppression ⟨fun _ => some 0, [Json.int 7]⟩
    [(BotServices.accountA, .success [BotServices.threatMsg7] 1)]
    (Json.int 7) (by decide)

/-! ### Cursor behaviour -/

namespace BotServices

theorem setIndex_self (f : Account → Option Int) (a : Account) (k : Int) :
    setIndex f a k a = some k := by
  simp [setIndex]

theorem setIndex_ne (f : Account → Option Int) (a b : Account) (k : Int)
    (h : a ≠ b) : setIndex f b k a = f a := by
  simp [setIndex, h]

theorem listenerStep_indices_skip (st : ListenerState) (b : Account) :
    ∀ (e : String),
      (listenerStep st b .absent).1.indices = st.indices ∧
      (listenerStep st b (.error e)).1.indices = st.indices :=
  fun _ => ⟨rfl, rfl⟩

theorem listenerStep_indices_success (st : ListenerState) (b : Account)
    (msgs : List DP.RawMsg) (k : Int) :
    (listenerStep st b (.success msgs k)).1.indices = setIndex st.indices b k := by
  simp only [listenerStep]
  split <;> rfl

theorem goodSched_tail (st : ListenerState) (b : Account) (r : PollResponse)
    (rest : List (Account × PollResponse))
    (h : goodSched st ((b, r) :: rest) = true) :
    goodSched (listenerStep st b r).1 rest = true := by
  rw [goodSched, Bool.and_eq_true] at h
  exact h.2

theorem goodSched_head_success (st : ListenerState) (b : Account)
    (msgs : List DP.RawMsg) (k : Int) (rest : List (Account × PollResponse))
    (i : Int) (h : goodSched st ((b, .success msgs k) :: rest) = true)
    (hi : lookupIndex b st = some i) : i ≤ k := by
  rw [goodSched, Bool.and_eq_true] at h
  have h1 := h.1
  rw [goodStep, hi] at h1
  exact of_decide_eq_true h1

end BotServices

/-- Counterexample to C3: the polling cursor is replaced by whatever index
the server returns, so a successful poll that returns a smaller index
moves the cursor backwards: starting from cursor 5, two successful polls
each returning index 3 issue their requests with `start_index` 5 and then
3 — the sequence of start indices decreases. -/
theorem C3_counterexample_cursor_decreases :
    BotServices.pollStartsFor BotServices.accountA ⟨fun _ => some 5, []⟩
      [(BotServices.accountA, .success [] 3), (BotServices.accountA, .success [] 3)]
      = [5, 3] ∧
    ¬ ((5 : Int) ≤ 3) := by
  constructor
  · rfl
  · decide

/-- C3 as amended: the cursor equals the index returned by the most recent
successful poll, so the `start_index` sequence of an account's poll
requests is non-decreasing provided every successful response returns an
index no smaller than the cursor the request was issued from
(`goodSched`). -/
theorem C3_amended_cursor_monotone_for_monotone_responses :
    ∀ (sched : List (BotServices.Account × BotServices.PollResponse))
      (st : BotServices.ListenerState) (a : BotServices.Account) (i : Int),
      BotServices.lookupIndex a st = some i →
      BotServices.goodSched st sched = true →
      List.Chain' (fun x y => x ≤ y)
        (i :: BotServices.pollStartsFor a st sched) := by
  intro sched
  induction sched with
  | nil =>
    intro st a i hi hg
    simp [BotServices.pollStartsFor]
  | cons p rest ih =>
    obtain ⟨b, r⟩ := p
    intro st a i hi hg
    have hg2 := BotServices.goodSched_tail st b r rest hg
    by_cases hba : b = a
    · subst hba
      have hlist : BotServices.pollStartsFor b st ((b, r) :: rest)
          = i :: BotServices.pollStartsFor b (BotServices.listenerStep st b r).1 rest := by
        simp [BotServices.pollStartsFor, hi]
      rw [hlist, List.chain'_cons']
      refine ⟨?_, ?_⟩
      · intro y hy
        rw [List.head?_cons] at hy
        cases hy
        exact le_refl i
      · cases r with
        | absent => exact ih st b i hi hg2
        | error e => exact ih st b i hi hg2
        | success msgs k =>
          have hik : i ≤ k :=
            BotServices.goodSched_head_success st b msgs k rest i hg hi
          have hidx : BotServices.lookupIndex b
              (BotServices.listenerStep st b (.success msgs k)).1 = some k := by
            rw [BotServices.lookupIndex, BotServices.listenerStep_indices_success]
            exact BotServices.setIndex_self st.indices b k
          have hch := ih (BotServices.listenerStep st b (.success msgs k)).1 b k hidx hg2
          rw [List.chain'_cons'] at hch ⊢
          exact ⟨fun y hy => le_trans hik (hch.1 y hy), hch.2⟩
    · have hpres : BotServices.lookupIndex a (BotServices.listenerStep st b r).1 = some i := by
        cases r with
        | absent => exact hi
        | error e => exact hi
        | success msgs k =>
          rw [BotServices.lookupIndex, BotServices.listenerStep_indices_success]
          rw [BotServices.setIndex_ne st.indices a b k (fun hh => hba hh.symm)]
          exact hi
      have hlist : BotServices.pollStartsFor a st ((b, r) :: rest)
          = BotServices.pollStartsFor a (BotServices.listenerStep st b r).1 rest := by
        simp [BotServices.pollStartsFor, hba]
      rw [hlist]
      exact ih (BotServices.listenerStep st b r).1 a i hpres hg2

/-- Witness for the amended C3: cursor 5, then successful polls returning
7 and 9 — the start indices 5, 7 are non-decreasing. -/
theorem C3_amended_cursor_monotone_witness :
    List.Chain' (fun x y => x ≤ y)
      ((5 : Int) :: BotServices.pollStartsFor BotServices.accountA ⟨fun _ => some 5, []⟩
        [(BotServices.accountA, .success [] 7), (BotServices.accountA, .success [] 9)]) :=
  C3_amended_cursor_monotone_for_monotone_responses
    [(BotServices.accountA, .success [] 7), (BotServices.accountA, .success [] 9)]
    ⟨fun _ => some 5, []⟩ BotServices.accountA 5 rfl (by decide)

/-! ### Decoder batch behaviour -/

/-- Counterexample to C6: a structurally complete entry that merely lacks
the `GS`/`GA` threat markers is discarded without any structural failure,
so a batch of N = 1 entries with K = 0 malformed entries yields 0 records,
not N − K = 1. -/
theorem C6_counterexample_non_attack_entry :
    DP.entry_not_attack DP.samplePlayers DP.nonThreatEntry = true ∧
    DP.entry_malformed DP.samplePlayers DP.nonThreatEntry = false ∧
    (DP.processEntries DP.samplePlayers [DP.nonThreatEntry]).length = 0 ∧
    (DP.processEntries DP.samplePlayers [DP.nonThreatEntry]).length
      ≠ [DP.nonThreatEntry].length
          - [DP.nonThreatEntry].countP (DP.entry_malformed DP.samplePlayers) := by
  refine ⟨rfl, rfl, rfl, ?_⟩
  decide

/-- C6 as amended: decoding a batch of N raw entries never raises (the
decoder is a total function), each structural failure discards only its
own entry, and the batch yields exactly N − K − D records, where K counts
the entries whose unpacking fails structurally (missing field, wrong type)
and D counts the well-formed entries that are not attack threats (lacking
both `GS` and `GA`). -/
theorem C6_amended_batch_decode_count
    (players : List (String × Json)) (entries : List Json) :
    (DP.processEntries players entries).length
        + entries.countP (DP.entry_malformed players)
        + entries.countP (DP.entry_not_attack players)
      = entries.length := by
  induction entries with
  | nil => rfl
  | cons e rest ih =>
    cases hu : DP.unpack_atk_data e players with
    | error u =>
      simp [DP.processEntries, hu, List.countP_cons, DP.entry_malformed,
        DP.entry_not_attack]
      omega
    | ok o =>
      cases o with
      | none =>
        simp [DP.processEntries, hu, List.countP_cons, DP.entry_malformed,
          DP.entry_not_attack]
        omega
      | some r =>
        simp [DP.processEntries, hu, List.countP_cons, DP.entry_malformed,
          DP.entry_not_attack]
        omega

end GGE
